import Mathlib

/-!
Verification of `yunchang/ring/stripe_flash_attn.py` (stripe flash attention:
striped ring attention with causal masking).

Modelling conventions:
* Tensors are abstracted to their sequence dimension: a tensor of shape
  (batch, seqlen, heads, dim) is a `List α` whose entries are the per-position
  rows (batch/heads/dim collapsed into the abstract row type `α`).
  The Python slice `t[:, 1:]` becomes `List.drop 1`, `t[:, :-1]` becomes
  `List.dropLast`, and `softmax_lse[:, :, 1:]` (layout (batch, heads, seq))
  also becomes `List.drop 1` of the seq-indexed list.
* The block attention kernel (`select_flash_attn_impl`, external to this
  repository) is an opaque parameter `fker`.
* The ring channel (`RingComm`, from `yunchang/ring/utils.py`) delivers at
  step `s` the blocks `recvK s` / `recvV s`; under lockstep execution these
  are the neighbour's current blocks, but the per-rank drivers only see the
  delivered values, so they are a parameter of the model.
* Each driver records a trace: one kernel-call record per ring step and a
  per-step list of communication events, so that scheduling claims are
  statements about the trace.
-/

/-- Communication / compute events of one forward ring step
(`comm.send_recv`, `comm.commit`, the kernel invocation, `comm.wait`). -/
inductive StepEvent : Type
  | sendRecvK : StepEvent
  | sendRecvV : StepEvent
  | commitEv : StepEvent
  | kernelEv : StepEvent
  | waitEv : StepEvent
deriving DecidableEq, Repr

/-- Record of one forward kernel invocation (lines 37-49 / 52-64): the
(sequence-sliced) q, k, v arguments, the causal flag passed to the kernel,
and which branch of line 36 was taken (`shifted = true` is the else branch). -/
structure FwdCall (α : Type) where
  cq : List α
  ck : List α
  cv : List α
  causalFlag : Bool
  shifted : Bool
deriving DecidableEq, Repr

/-- Loop state of `stripe_flash_attn_forward` (lines 25-28 and the loop-carried
variables): the running accumulator (`out`/`lse` merged into one row list,
`none` before the first step), the current k and v blocks, and the trace. -/
structure FwdState (α ρ : Type) where
  out : Option (List ρ)
  curk : List α
  curv : List α
  calls : List (FwdCall α)
  evts : List (List StepEvent)
deriving DecidableEq, Repr

/-- Modelled from the spec: `update_out_and_lse` is imported from
`yunchang.ring.utils`, whose source is not under src/.  Spec §4.3
(OnlineSoftmaxMerger): if the running accumulator is empty the block is simply
assigned; otherwise rows from `off` onwards are combined row-wise with the
block rows by the online-softmax identity, and rows before `off` (row 0 in the
shifted case) are passed through unchanged.  The row-wise combination itself
(the log-sum-exp weighted average of spec §4.3, an exact mathematical
operation on an (out, lse) row pair) is kept opaque as `mergeRow`; in this
program the empty-accumulator case only ever occurs with `off = 0`. -/
def update_out_and_lse {ρ : Type} (mergeRow : ρ → ρ → ρ)
    (acc : Option (List ρ)) (block : List ρ) (off : Nat) : Option (List ρ) :=
  match acc with
  | none => some block
  | some run => some (run.take off ++ List.zipWith mergeRow (run.drop off) block)

/-- One iteration of the forward ring loop, `step = s`
(lines 30-72 of `stripe_flash_attn_forward`):
fetch next k/v and commit unless last step (31-34); full-block kernel call when
`step <= rank` (36-50) merged at offset 0, shifted call on `q[:, 1:]`,
`k[:, :-1]`, `v[:, :-1]` otherwise (51-67) merged at offset 1; wait and rotate
k/v unless last step (69-72). -/
def fwdStep {α ρ : Type} (P r : Nat) (causal : Bool) (mergeRow : ρ → ρ → ρ)
    (fker : Bool → List α → List α → List α → List ρ)
    (recvK recvV : Nat → List α) (q : List α)
    (st : FwdState α ρ) (s : Nat) : FwdState α ρ :=
  let fetch : List StepEvent :=
    if s + 1 ≠ P then [.sendRecvK, .sendRecvV, .commitEv] else []
  let tail : List StepEvent := if s + 1 ≠ P then [.waitEv] else []
  let out2 :=
    if s ≤ r then
      update_out_and_lse mergeRow st.out (fker causal q st.curk st.curv) 0
    else
      update_out_and_lse mergeRow st.out
        (fker causal (q.drop 1) st.curk.dropLast st.curv.dropLast) 1
  let call : FwdCall α :=
    if s ≤ r then
      ⟨q, st.curk, st.curv, causal, false⟩
    else
      ⟨q.drop 1, st.curk.dropLast, st.curv.dropLast, causal, true⟩
  { out := out2
    curk := if s + 1 ≠ P then recvK s else st.curk
    curv := if s + 1 ≠ P then recvV s else st.curv
    calls := st.calls ++ [call]
    evts := st.evts ++ [fetch ++ [.kernelEv] ++ tail] }

/-- Runs the forward loop from step `s` for `fuel` more steps. -/
def fwdLoop {α ρ : Type} (P r : Nat) (causal : Bool) (mergeRow : ρ → ρ → ρ)
    (fker : Bool → List α → List α → List α → List ρ)
    (recvK recvV : Nat → List α) (q : List α)
    (s fuel : Nat) (st : FwdState α ρ) : FwdState α ρ :=
  match fuel with
  | 0 => st
  | fuel' + 1 =>
      fwdLoop P r causal mergeRow fker recvK recvV q (s + 1) fuel'
        (fwdStep P r causal mergeRow fker recvK recvV q st s)

/-- The whole forward loop: `for step in range(comm.world_size)` (line 30)
starting from the empty accumulator and the local k, v (lines 25-28). -/
def stripeFwdLoop {α ρ : Type} (P r : Nat) (causal : Bool) (mergeRow : ρ → ρ → ρ)
    (fker : Bool → List α → List α → List α → List ρ)
    (recvK recvV : Nat → List α) (q k v : List α) : FwdState α ρ :=
  fwdLoop P r causal mergeRow fker recvK recvV q 0 P ⟨none, k, v, [], []⟩

/-- `stripe_flash_attn_forward` (lines 6-76): the causal assertion
(lines 20-22) precedes everything; a non-causal call raises before any ring
step, transfer, or state mutation, which the model renders as an `error`
result carrying no trace.  `deterministic` is accepted (line 17) but never
read by the forward loop, exactly as in the source. -/
def stripe_flash_attn_forward {α ρ : Type} (P r : Nat) (causal : Bool)
    (mergeRow : ρ → ρ → ρ)
    (fker : Bool → List α → List α → List α → List ρ)
    (recvK recvV : Nat → List α) (q k v : List α)
    (deterministic : Bool) : Except String (FwdState α ρ) :=
  if causal then
    .ok (stripeFwdLoop P r causal mergeRow fker recvK recvV q k v)
  else
    .error "stripe flash attn only supports causal attention, if not causal, use ring flash attn instead"

/-- The k (resp. v) block held by the loop at entry to step `s`: the local
block at step 0, afterwards the block received at the previous step
(lines 71-72 `k = next_k`, `v = next_v`). -/
def curKV {α : Type} (b : List α) (recv : Nat → List α) : Nat → List α
  | 0 => b
  | s + 1 => recv s

/-- The kernel call the forward loop makes at step `s`. -/
def expFwdCall {α : Type} (r : Nat) (causal : Bool)
    (q k v : List α) (recvK recvV : Nat → List α) (s : Nat) : FwdCall α :=
  if s ≤ r then
    ⟨q, curKV k recvK s, curKV v recvV s, causal, false⟩
  else
    ⟨q.drop 1, (curKV k recvK s).dropLast, (curKV v recvV s).dropLast, causal, true⟩

/-- The communication/compute events of forward step `s`. -/
def expFwdEvts (P s : Nat) : List StepEvent :=
  (if s + 1 ≠ P then [.sendRecvK, .sendRecvV, .commitEv] else [])
    ++ [.kernelEv] ++ (if s + 1 ≠ P then [.waitEv] else [])

theorem fwdLoop_calls_evts {α ρ : Type} (P r : Nat) (causal : Bool)
    (mergeRow : ρ → ρ → ρ) (fker : Bool → List α → List α → List α → List ρ)
    (recvK recvV : Nat → List α) (q k v : List α) :
    ∀ (fuel s : Nat) (st : FwdState α ρ), s + fuel = P →
      st.curk = curKV k recvK s → st.curv = curKV v recvV s →
      (fwdLoop P r causal mergeRow fker recvK recvV q s fuel st).calls
          = st.calls ++ (List.range' s fuel).map (expFwdCall r causal q k v recvK recvV)
        ∧ (fwdLoop P r causal mergeRow fker recvK recvV q s fuel st).evts
          = st.evts ++ (List.range' s fuel).map (expFwdEvts P) := by
  intro fuel
  induction fuel with
  | zero => intro s st _ _ _; simp [fwdLoop]
  | succ f ih =>
      intro s st hP hk hv
      show (fwdLoop P r causal mergeRow fker recvK recvV q (s+1) f
              (fwdStep P r causal mergeRow fker recvK recvV q st s)).calls = _
        ∧ (fwdLoop P r causal mergeRow fker recvK recvV q (s+1) f
              (fwdStep P r causal mergeRow fker recvK recvV q st s)).evts = _
      have hstep_calls :
          (fwdStep P r causal mergeRow fker recvK recvV q st s).calls
            = st.calls ++ [expFwdCall r causal q k v recvK recvV s] := by
        by_cases hsr : s ≤ r <;> simp [fwdStep, expFwdCall, hsr, hk, hv]
      have hstep_evts :
          (fwdStep P r causal mergeRow fker recvK recvV q st s).evts
            = st.evts ++ [expFwdEvts P s] := by
        simp [fwdStep, expFwdEvts]
      rcases Nat.eq_zero_or_pos f with hf | hf
      · subst hf
        constructor
        · simpa [fwdLoop, List.range'_succ, hstep_calls]
        · simpa [fwdLoop, List.range'_succ, hstep_evts]
      · have hsP : s + 1 ≠ P := by omega
        have hk2 : (fwdStep P r causal mergeRow fker recvK recvV q st s).curk
            = curKV k recvK (s + 1) := by
          simp [fwdStep, hsP, curKV]
        have hv2 : (fwdStep P r causal mergeRow fker recvK recvV q st s).curv
            = curKV v recvV (s + 1) := by
          simp [fwdStep, hsP, curKV]
        have := ih (s + 1) (fwdStep P r causal mergeRow fker recvK recvV q st s)
          (by omega) hk2 hv2
        constructor
        · rw [this.1, hstep_calls, List.range'_succ]
          simp
        · rw [this.2, hstep_evts, List.range'_succ]
          simp

theorem stripeFwdLoop_calls {α ρ : Type} (P r : Nat) (causal : Bool)
    (mergeRow : ρ → ρ → ρ) (fker : Bool → List α → List α → List α → List ρ)
    (recvK recvV : Nat → List α) (q k v : List α) :
    (stripeFwdLoop P r causal mergeRow fker recvK recvV q k v).calls
      = (List.range' 0 P).map (expFwdCall r causal q k v recvK recvV) := by
  have := fwdLoop_calls_evts P r causal mergeRow fker recvK recvV q k v P 0
    ⟨none, k, v, [], []⟩ (by omega) rfl rfl
  simpa [stripeFwdLoop] using this.1

theorem stripeFwdLoop_evts {α ρ : Type} (P r : Nat) (causal : Bool)
    (mergeRow : ρ → ρ → ρ) (fker : Bool → List α → List α → List α → List ρ)
    (recvK recvV : Nat → List α) (q k v : List α) :
    (stripeFwdLoop P r causal mergeRow fker recvK recvV q k v).evts
      = (List.range' 0 P).map (expFwdEvts P) := by
  have := fwdLoop_calls_evts P r causal mergeRow fker recvK recvV q k v P 0
    ⟨none, k, v, [], []⟩ (by omega) rfl rfl
  simpa [stripeFwdLoop] using this.2

/-- Communication / compute events of one backward ring step, tagged by
channel: `kv` events belong to `kv_comm` (forward-direction K/V rotation),
`dkv` events to `d_kv_comm` (gradient rotation), two independent channels
(lines 99-100). -/
inductive BwdEvent : Type
  | kvFetchK : BwdEvent
  | kvFetchV : BwdEvent
  | kvCommit : BwdEvent
  | kvWait : BwdEvent
  | bkernel : BwdEvent
  | dkvWait : BwdEvent
  | dkvSendDK : BwdEvent
  | dkvSendDV : BwdEvent
  | dkvCommit : BwdEvent
deriving DecidableEq, Repr

/-- Is the event a `kv_comm` (K/V-rotation) event? -/
def BwdEvent.isKv : BwdEvent → Bool
  | .kvFetchK => true
  | .kvFetchV => true
  | .kvCommit => true
  | .kvWait => true
  | _ => false

/-- How a pre-allocated per-step gradient buffer (`block_dq_buffer`,
`block_dk_buffer`, `block_dv_buffer`, lines 106-108) is sliced when passed to
the backward kernel: whole buffer, rows [1, end) (`buf[:, 1:]`), or rows
[0, end-1) (`buf[:, :-1]`). -/
inductive BufSlice : Type
  | whole : BufSlice
  | dropFirst : BufSlice
  | dropLastRow : BufSlice
deriving DecidableEq, Repr

/-- Record of one backward kernel invocation (lines 118-137 / 142-161):
the (sequence-sliced) dout, q, k, v, out and log-sum-exp arguments, the slice
used for each gradient buffer, the branch of line 115 taken, the causal flag,
and — in the shifted branch — whether the `softmax_lse_1 is None` guard
(line 139) observed `None`. -/
structure BwdCall (α : Type) where
  bdout : List α
  bq : List α
  bk : List α
  bv : List α
  bout : List α
  blse : List α
  dqBuf : BufSlice
  dkBuf : BufSlice
  dvBuf : BufSlice
  shifted : Bool
  causalFlag : Bool
  lseGuardNone : Option Bool
deriving DecidableEq, Repr

/-- Loop state of `stripe_flash_attn_backward` (lines 101-108 and the
loop-carried variables).  `lse1` models the Python variable `softmax_lse_1`
(which persists across iterations but is reassigned to `None` at the top of
each one, line 116); `dqIsNone` models the `dq is None` test of line 163,
true only before the first step. -/
structure BwdState (α : Type) where
  curk : List α
  curv : List α
  lse1 : Option (List α)
  dqIsNone : Bool
  calls : List (BwdCall α)
  evts : List (List BwdEvent)
deriving DecidableEq, Repr

/-- One iteration of the backward ring loop, `step = s`
(lines 109-191 of `stripe_flash_attn_backward`):
fetch next k/v and commit unless last step (110-113); `shift_causal = step >
rank` (115); `softmax_lse_1 = None` (116); full backward kernel call (117-137)
or shifted call on `dout[:, 1:]`, `q[:, 1:]`, `k[:, :-1]`, `v[:, :-1]`,
`out[:, 1:]` and the lazily sliced `softmax_lse[:, :, 1:]` (138-161);
`d_kv_comm.wait()` on every step on which `dq` is already initialized (172);
`kv_comm.wait()` and k/v rotation unless last step (184-187); gradient
send/recv and commit on every step (189-191). -/
def bwdStep {α : Type} (P r : Nat) (causal : Bool)
    (recvK recvV : Nat → List α)
    (dout q out lse : List α)
    (st : BwdState α) (s : Nat) : BwdState α :=
  let fetch : List BwdEvent :=
    if s + 1 ≠ P then [.kvFetchK, .kvFetchV, .kvCommit] else []
  let shift : Bool := decide (s > r)
  let lse1a : Option (List α) := none
  let pair : BwdCall α × Option (List α) :=
    if shift then
      let guardNone := lse1a.isNone
      let lseArg := match lse1a with
        | none => lse.drop 1
        | some c => c
      (⟨dout.drop 1, q.drop 1, st.curk.dropLast, st.curv.dropLast, out.drop 1,
         lseArg, .dropFirst, .dropLastRow, .dropLastRow, true, causal,
         some guardNone⟩,
       some lseArg)
    else
      (⟨dout, q, st.curk, st.curv, out, lse, .whole, .whole, .whole, false,
         causal, none⟩,
       lse1a)
  let gradWaitEvts : List BwdEvent := if st.dqIsNone then [] else [.dkvWait]
  let kvWaitEvts : List BwdEvent := if s + 1 ≠ P then [.kvWait] else []
  { curk := if s + 1 ≠ P then recvK s else st.curk
    curv := if s + 1 ≠ P then recvV s else st.curv
    lse1 := pair.2
    dqIsNone := false
    calls := st.calls ++ [pair.1]
    evts := st.evts ++ [fetch ++ [.bkernel] ++ gradWaitEvts ++ kvWaitEvts
      ++ [.dkvSendDK, .dkvSendDV, .dkvCommit]] }

/-- Runs the backward loop from step `s` for `fuel` more steps. -/
def bwdLoop {α : Type} (P r : Nat) (causal : Bool)
    (recvK recvV : Nat → List α) (dout q out lse : List α)
    (s fuel : Nat) (st : BwdState α) : BwdState α :=
  match fuel with
  | 0 => st
  | fuel' + 1 =>
      bwdLoop P r causal recvK recvV dout q out lse (s + 1) fuel'
        (bwdStep P r causal recvK recvV dout q out lse st s)

/-- Result of the backward driver: the final loop state plus the events after
the loop — the final gradient-rotation wait of line 193. -/
structure BwdResult (α : Type) where
  fin : BwdState α
  postEvts : List BwdEvent
deriving DecidableEq, Repr

/-- `stripe_flash_attn_backward` (lines 79-195): the causal assertion
(lines 96-98) precedes everything; then `for step in range(kv_comm.world_size)`
(line 109) from the initial state (lines 101-104), and a final
`d_kv_comm.wait()` (line 193). -/
def stripe_flash_attn_backward {α : Type} (P r : Nat) (causal : Bool)
    (recvK recvV : Nat → List α) (dout q k v out lse : List α)
    (deterministic : Bool) : Except String (BwdResult α) :=
  if causal then
    .ok ⟨bwdLoop P r causal recvK recvV dout q out lse 0 P
          ⟨k, v, none, true, [], []⟩, [.dkvWait]⟩
  else
    .error "stripe flash attn only supports causal attention, if not causal, ring flash attn instead"

/-- The kernel call the backward loop makes at step `s`. -/
def expBwdCall {α : Type} (r : Nat) (causal : Bool)
    (dout q k v out lse : List α) (recvK recvV : Nat → List α) (s : Nat) :
    BwdCall α :=
  if s > r then
    ⟨dout.drop 1, q.drop 1, (curKV k recvK s).dropLast,
      (curKV v recvV s).dropLast, out.drop 1, lse.drop 1,
      .dropFirst, .dropLastRow, .dropLastRow, true, causal, some true⟩
  else
    ⟨dout, q, curKV k recvK s, curKV v recvV s, out, lse,
      .whole, .whole, .whole, false, causal, none⟩

/-- The communication/compute events of backward step `s`. -/
def expBwdEvts (P s : Nat) : List BwdEvent :=
  (if s + 1 ≠ P then [.kvFetchK, .kvFetchV, .kvCommit] else [])
    ++ [.bkernel] ++ (if s = 0 then [] else [.dkvWait])
    ++ (if s + 1 ≠ P then [.kvWait] else [])
    ++ [.dkvSendDK, .dkvSendDV, .dkvCommit]

theorem bwdLoop_calls_evts {α : Type} (P r : Nat) (causal : Bool)
    (recvK recvV : Nat → List α) (dout q k v out lse : List α) :
    ∀ (fuel s : Nat) (st : BwdState α), s + fuel = P →
      st.curk = curKV k recvK s → st.curv = curKV v recvV s →
      st.dqIsNone = decide (s = 0) →
      (bwdLoop P r causal recvK recvV dout q out lse s fuel st).calls
          = st.calls
            ++ (List.range' s fuel).map (expBwdCall r causal dout q k v out lse recvK recvV)
        ∧ (bwdLoop P r causal recvK recvV dout q out lse s fuel st).evts
          = st.evts ++ (List.range' s fuel).map (expBwdEvts P) := by
  intro fuel
  induction fuel with
  | zero => intro s st _ _ _ _; simp [bwdLoop]
  | succ f ih =>
      intro s st hP hk hv hdq
      show (bwdLoop P r causal recvK recvV dout q out lse (s+1) f
              (bwdStep P r causal recvK recvV dout q out lse st s)).calls = _
        ∧ (bwdLoop P r causal recvK recvV dout q out lse (s+1) f
              (bwdStep P r causal recvK recvV dout q out lse st s)).evts = _
      have hstep_calls :
          (bwdStep P r causal recvK recvV dout q out lse st s).calls
            = st.calls ++ [expBwdCall r causal dout q k v out lse recvK recvV s] := by
        by_cases hsr : s > r <;>
          simp [bwdStep, expBwdCall, hsr, hk, hv]
      have hstep_evts :
          (bwdStep P r causal recvK recvV dout q out lse st s).evts
            = st.evts ++ [expBwdEvts P s] := by
        rcases Nat.eq_zero_or_pos s with hs | hs
        · subst hs; simp [bwdStep, expBwdEvts, hdq]
        · have : ¬ (s = 0) := by omega
          simp [bwdStep, expBwdEvts, hdq, this]
      rcases Nat.eq_zero_or_pos f with hf | hf
      · subst hf
        constructor
        · simpa [bwdLoop, List.range'_succ, hstep_calls]
        · simpa [bwdLoop, List.range'_succ, hstep_evts]
      · have hsP : s + 1 ≠ P := by omega
        have hk2 : (bwdStep P r causal recvK recvV dout q out lse st s).curk
            = curKV k recvK (s + 1) := by
          simp [bwdStep, hsP, curKV]
        have hv2 : (bwdStep P r causal recvK recvV dout q out lse st s).curv
            = curKV v recvV (s + 1) := by
          simp [bwdStep, hsP, curKV]
        have hdq2 : (bwdStep P r causal recvK recvV dout q out lse st s).dqIsNone
            = decide (s + 1 = 0) := by
          simp [bwdStep]
        have := ih (s + 1) (bwdStep P r causal recvK recvV dout q out lse st s)
          (by omega) hk2 hv2 hdq2
        constructor
        · rw [this.1, hstep_calls, List.range'_succ]
          simp
        · rw [this.2, hstep_evts, List.range'_succ]
          simp

theorem stripe_bwd_calls {α : Type} (P r : Nat) (causal : Bool)
    (recvK recvV : Nat → List α) (dout q k v out lse : List α)
    (deterministic : Bool) (res : BwdResult α)
    (h : stripe_flash_attn_backward P r causal recvK recvV dout q k v out lse
          deterministic = .ok res) :
    res.fin.calls
      = (List.range' 0 P).map (expBwdCall r causal dout q k v out lse recvK recvV) := by
  by_cases hc : causal
  · have hres : res = ⟨bwdLoop P r causal recvK recvV dout q out lse 0 P
        ⟨k, v, none, true, [], []⟩, [.dkvWait]⟩ := by
      simpa [stripe_flash_attn_backward, hc] using h.symm
    subst hres
    have := bwdLoop_calls_evts P r causal recvK recvV dout q k v out lse P 0
      ⟨k, v, none, true, [], []⟩ (by omega) rfl rfl (by simp)
    simpa using this.1
  · simp [stripe_flash_attn_backward, hc] at h

theorem stripe_bwd_evts {α : Type} (P r : Nat) (causal : Bool)
    (recvK recvV : Nat → List α) (dout q k v out lse : List α)
    (deterministic : Bool) (res : BwdResult α)
    (h : stripe_flash_attn_backward P r causal recvK recvV dout q k v out lse
          deterministic = .ok res) :
    res.fin.evts = (List.range' 0 P).map (expBwdEvts P) := by
  by_cases hc : causal
  · have hres : res = ⟨bwdLoop P r causal recvK recvV dout q out lse 0 P
        ⟨k, v, none, true, [], []⟩, [.dkvWait]⟩ := by
      simpa [stripe_flash_attn_backward, hc] using h.symm
    subst hres
    have := bwdLoop_calls_evts P r causal recvK recvV dout q k v out lse P 0
      ⟨k, v, none, true, [], []⟩ (by omega) rfl rfl (by simp)
    simpa using this.2
  · simp [stripe_flash_attn_backward, hc] at h

/-!
Lockstep model of the dK/dV gradient ring of `stripe_flash_attn_backward`
(lines 163-195).  Gradient blocks are functions `Fin n → G` over an additive
commutative monoid `G` (the sequence rows of a dK or dV tensor); `contrib t s`
is the block the backward kernel writes into `block_dk_buffer` (resp.
`block_dv_buffer`) at rank `t`, step `s` — opaque, since the kernel is
external.  Ranks are `ZMod P`; `RingComm.send_recv` sends to rank `r + 1` and
receives from rank `r - 1`, so under lockstep execution the base received by
rank `r` at step `s + 1` is what rank `r - 1` held at the end of step `s`.
-/

/-- The per-step dK/dV accumulator update at one rank (lines 168-182, gradient
part): in Full mode (`shift_causal` false) the whole contribution is added
(`dk = block_dk_buffer + dk`, line 178); in Shifted mode only rows
[0, end-1) are added (`dk[:, :-1] += block_dk_buffer[:, :-1]`, line 181) and
the last row of the base is left unchanged. -/
def gradUpdate {G : Type} [AddCommMonoid G] (n : Nat) (shift : Bool)
    (block base : Fin n → G) : Fin n → G :=
  if shift then fun i => if i.val + 1 < n then base i + block i else base i
  else fun i => block i + base i

/-- The dK (resp. dV) accumulator held by rank `r` at the end of step `s`,
under lockstep execution of all `P` ranks.  Step 0 initializes the accumulator
directly from the step's contribution (`dk = block_dk_buffer.to(torch.float32)`,
lines 163-166; step 0 is always Full since `0 > rank` never holds); at step
`s + 1` the rank waits on the gradient rotation (line 172), takes the received
base — what rank `r - 1` held at the end of step `s`, sent at lines 189-191 —
as the new accumulator (lines 174-175) and adds its own contribution at the
rows implied by `shift_causal = step > rank` (lines 177-182). -/
def gradAfter {G : Type} [AddCommMonoid G] (P n : Nat) [NeZero P]
    (contrib : ZMod P → Nat → Fin n → G) : Nat → ZMod P → Fin n → G
  | 0, r => contrib r 0
  | s + 1, r =>
      gradUpdate n (decide (s + 1 > (r : ZMod P).val)) (contrib r (s + 1))
        (gradAfter P n contrib s (r - 1))

/-- The gradient returned at rank `r`: after the loop's last step (`P - 1`), one
more rotation hop is in flight (issued at lines 189-191 of the last iteration)
and the final `d_kv_comm.wait()` (line 193) delivers what rank `r - 1` held at
the end of step `P - 1`; this is the value returned at line 195. -/
def gradReturned {G : Type} [AddCommMonoid G] (P n : Nat) [NeZero P]
    (contrib : ZMod P → Nat → Fin n → G) (r : ZMod P) : Fin n → G :=
  gradAfter P n contrib (P - 1) (r - 1)

/-- The single contribution of rank `t`'s query block to the gradient of the
K/V shard owned by rank `r`: rank `t` holds shard `r` at step `(t - r).val`,
and if that step ran in Shifted mode the last row receives nothing. -/
def ringContrib {G : Type} [AddCommMonoid G] (P n : Nat) [NeZero P]
    (contrib : ZMod P → Nat → Fin n → G) (r t : ZMod P) : Fin n → G :=
  fun i =>
    if decide ((t - r).val > t.val) && decide (i.val + 1 = n) then 0
    else contrib t ((t - r).val) i

/-- Helper: the masked contribution accumulated for shard `sh` at ring step
`u` (the rank holding shard `sh` at step `u` is `sh + u`). -/
def shardStepContrib {G : Type} [AddCommMonoid G] (P n : Nat) [NeZero P]
    (contrib : ZMod P → Nat → Fin n → G) (sh : ZMod P) (u : Nat) : Fin n → G :=
  fun i =>
    if decide (u > (sh + (u : ZMod P)).val) && decide (i.val + 1 = n) then 0
    else contrib (sh + (u : ZMod P)) u i

theorem gradAfter_sum {G : Type} [AddCommMonoid G] (P n : Nat) [NeZero P]
    (contrib : ZMod P → Nat → Fin n → G) :
    ∀ (s : Nat) (r : ZMod P),
      gradAfter P n contrib s r
        = fun i => ∑ u ∈ Finset.range (s + 1),
            shardStepContrib P n contrib (r - (s : ZMod P)) u i := by
  intro s
  induction s with
  | zero =>
      intro r
      funext i
      simp [gradAfter, shardStepContrib, ZMod.val_lt]
  | succ s ih =>
      intro r
      have key : (r - 1 : ZMod P) - (s : ZMod P) = r - ((s + 1 : Nat) : ZMod P) := by
        push_cast
        ring
      funext i
      have hbase := congrFun (ih (r - 1)) i
      rw [key] at hbase
      set sh : ZMod P := r - ((s + 1 : Nat) : ZMod P) with hsh
      have hshr : sh + ((s + 1 : Nat) : ZMod P) = r := by
        rw [hsh]; ring
      have hlast : shardStepContrib P n contrib sh (s + 1) i
          = (if decide (s + 1 > (r : ZMod P).val) && decide (i.val + 1 = n) then 0
             else contrib r (s + 1) i) := by
        simp only [shardStepContrib, hshr]
      show gradUpdate n (decide (s + 1 > (r : ZMod P).val)) (contrib r (s + 1))
          (gradAfter P n contrib s (r - 1)) i = _
      rw [Finset.sum_range_succ, ← hbase, hlast]
      by_cases hshift : s + 1 > (r : ZMod P).val
      · by_cases hi : i.val + 1 < n
        · have : ¬ (i.val + 1 = n) := by omega
          simp [gradUpdate, hshift, hi, this, add_comm]
        · have : i.val + 1 = n := by omega
          simp [gradUpdate, hshift, hi, this]
      · simp [gradUpdate, hshift, add_comm]

theorem shardStepContrib_eq_ringContrib {G : Type} [AddCommMonoid G]
    (P n : Nat) [NeZero P] (contrib : ZMod P → Nat → Fin n → G)
    (r : ZMod P) (u : Nat) (hu : u < P) :
    shardStepContrib P n contrib r u = ringContrib P n contrib r (r + (u : ZMod P)) := by
  funext i
  have hval : ((r + (u : ZMod P)) - r) = (u : ZMod P) := by ring
  simp only [shardStepContrib, ringContrib, hval, ZMod.val_cast_of_lt hu]

theorem range'_map_getElem {β : Type} (f : Nat → β) (P s : Nat) (hs : s < P) :
    ((List.range' 0 P).map f)[s]? = some (f s) := by
  have hlen : s < ((List.range' 0 P).map f).length := by
    simpa using hs
  rw [List.getElem?_eq_getElem hlen]
  simp

theorem sum_shardStep_eq_sum_ring {G : Type} [AddCommMonoid G] (P n : Nat)
    [NeZero P] (contrib : ZMod P → Nat → Fin n → G) (r : ZMod P) (i : Fin n) :
    ∑ u ∈ Finset.range P, shardStepContrib P n contrib r u i
      = ∑ t : ZMod P, ringContrib P n contrib r t i := by
  refine Finset.sum_nbij' (fun u => r + (u : ZMod P)) (fun t => (t - r).val)
    (fun u _ => Finset.mem_univ _) (fun t _ => Finset.mem_range.2 (ZMod.val_lt _))
    ?_ ?_ ?_
  · intro u hu
    have hu' : u < P := Finset.mem_range.1 hu
    show ((r + (u : ZMod P)) - r).val = u
    have : (r + (u : ZMod P)) - r = (u : ZMod P) := by ring
    rw [this, ZMod.val_cast_of_lt hu']
  · intro t _
    show r + (((t - r).val : Nat) : ZMod P) = t
    rw [ZMod.natCast_zmod_val (t - r)]
    ring
  · intro u hu
    have := congrFun (shardStepContrib_eq_ringContrib P n contrib r u
      (Finset.mem_range.1 hu)) i
    simpa using this

/-- C3: in `stripe_flash_attn_backward` each rank's dK/dV accumulator is
initialized on the first step directly from that step's computed contribution;
on every later step the prior gradient-rotation transfer is waited on (a
gradient-channel wait event occurs at every step after the first, and once
more after the loop), the received partial dK/dV becomes the new base, and
exactly one contribution is added, at the rows implied by the mode (all rows
in Full mode, rows [0, end-1) in Shifted mode); and the value the final wait
delivers at rank `r` is the gradient of the K/V shard owned by rank `r`, which
has travelled around the backward ring visiting every other rank and
accumulated exactly one (mode-masked) contribution from each of the `P` ranks'
query blocks. -/
theorem stripe_bwd_grad_ring {G α : Type} [AddCommMonoid G] (P n : Nat)
    [NeZero P] (contrib : ZMod P → Nat → Fin n → G) (r : ZMod P)
    (causal : Bool) (recvK recvV : Nat → List α) (dout q k v out lse : List α)
    (deterministic : Bool) (res : BwdResult α)
    (h : stripe_flash_attn_backward P r.val causal recvK recvV dout q k v out
          lse deterministic = .ok res) :
    gradAfter P n contrib 0 r = contrib r 0
    ∧ (∀ s : Nat, gradAfter P n contrib (s + 1) r
        = gradUpdate n (decide (s + 1 > r.val)) (contrib r (s + 1))
            (gradAfter P n contrib s (r - 1)))
    ∧ (∀ s : Nat, 0 < s → s < P →
        ∃ evl, res.fin.evts[s]? = some evl ∧ BwdEvent.dkvWait ∈ evl)
    ∧ res.postEvts = [BwdEvent.dkvWait]
    ∧ gradReturned P n contrib r
        = fun i => ∑ t : ZMod P, ringContrib P n contrib r t i := by
  have hc : causal := by
    by_contra hc
    simp [stripe_flash_attn_backward, hc] at h
  refine ⟨rfl, fun s => rfl, ?_, ?_, ?_⟩
  · intro s hs0 hsP
    refine ⟨expBwdEvts P s, ?_, ?_⟩
    · rw [stripe_bwd_evts P r.val causal recvK recvV dout q k v out lse
        deterministic res h]
      exact range'_map_getElem (expBwdEvts P) P s hsP
    · have : ¬ (s = 0) := by omega
      simp [expBwdEvts, this]
  · have hres : res = ⟨bwdLoop P r.val causal recvK recvV dout q out lse 0 P
        ⟨k, v, none, true, [], []⟩, [.dkvWait]⟩ := by
      simpa [stripe_flash_attn_backward, hc] using h.symm
    rw [hres]
  · have hP1 : P - 1 + 1 = P := Nat.succ_pred_eq_of_pos (Nat.pos_of_ne_zero (NeZero.ne P))
    have h1 : (1 : Nat) ≤ P := Nat.one_le_iff_ne_zero.2 (NeZero.ne P)
    have hcast : ((P - 1 : Nat) : ZMod P) = -1 := by
      rw [Nat.cast_sub h1]
      simp
    have hsh : (r - 1 : ZMod P) - ((P - 1 : Nat) : ZMod P) = r := by
      rw [hcast]; ring
    have hmain := gradAfter_sum P n contrib (P - 1) (r - 1)
    rw [hsh, hP1] at hmain
    show gradAfter P n contrib (P - 1) (r - 1) = _
    rw [hmain]
    funext i
    exact sum_shardStep_eq_sum_ring P n contrib r i

/-- Concrete per-rank, per-step gradient contributions used in the witness. -/
def contribW : ZMod 2 → Nat → Fin 2 → Int :=
  fun t s i => (t.val : Int) * 100 + (s : Int) * 10 + (i.val : Int) + 1

theorem stripe_bwd_grad_ring_witness :
    (gradReturned 2 2 contribW 1
      = fun i => ∑ t : ZMod 2, ringContrib 2 2 contribW 1 t i)
    ∧ gradReturned 2 2 contribW 1 ⟨0, by decide⟩ = 112 := by
  constructor
  · exact (stripe_bwd_grad_ring 2 2 contribW 1 true
      (fun _ => ([5, 6] : List Int)) (fun _ => [7, 8]) [1, 2] [3, 4] [9, 10]
      [11, 12] [13, 14] [15, 16] false _ rfl).2.2.2.2
  · decide

theorem zipWith_getElem? {α β γ : Type} (f : α → β → γ) :
    ∀ (l1 : List α) (l2 : List β) (i : Nat),
      (List.zipWith f l1 l2)[i]? = Option.map₂ f l1[i]? l2[i]? := by
  intro l1
  induction l1 with
  | nil => intro l2 i; simp [Option.map₂]
  | cons a t ih =>
      intro l2 i
      cases l2 with
      | nil => simp [Option.map₂]
      | cons b t2 =>
          cases i with
          | zero => simp [Option.map₂]
          | succ j => simpa using ih t2 j

/-- C1: at every ring step `s` of `stripe_flash_attn_forward`, Full mode is
used exactly when `s ≤ rank` — the kernel is invoked on the whole local q
against the whole current k/v block — and Shifted mode exactly when
`s > rank` — the kernel is invoked on query rows [1, end) against k/v rows
[0, end-1) — with the causal flag set in both modes. -/
theorem stripe_fwd_mode {α ρ : Type} (P r : Nat) (causal : Bool)
    (mergeRow : ρ → ρ → ρ) (fker : Bool → List α → List α → List α → List ρ)
    (recvK recvV : Nat → List α) (q k v : List α) (deterministic : Bool)
    (res : FwdState α ρ)
    (h : stripe_flash_attn_forward P r causal mergeRow fker recvK recvV q k v
          deterministic = .ok res)
    (s : Nat) (hs : s < P) :
    res.calls[s]? = some (if s ≤ r then
        ⟨q, curKV k recvK s, curKV v recvV s, true, false⟩
      else
        ⟨q.drop 1, (curKV k recvK s).dropLast, (curKV v recvV s).dropLast,
          true, true⟩) := by
  cases causal with
  | false => simp [stripe_flash_attn_forward] at h
  | true =>
      have hres : res = stripeFwdLoop P r true mergeRow fker recvK recvV q k v := by
        simpa [stripe_flash_attn_forward] using h.symm
      subst hres
      rw [stripeFwdLoop_calls, range'_map_getElem _ P s hs]
      by_cases hsr : s ≤ r <;> simp [expFwdCall, hsr]

/-- Concrete kernel for witnesses: returns a constant nonzero block of the
same sequence length as its q argument. -/
def fkerW : Bool → List Int → List Int → List Int → List Int :=
  fun _ qq _ _ => List.replicate qq.length 7

/-- Concrete received k blocks for witnesses. -/
def rkW : Nat → List Int := fun _ => [5, 6]

/-- Concrete received v blocks for witnesses. -/
def rvW : Nat → List Int := fun _ => [8, 9]

/-- Concrete forward run (P = 2, rank = 0) for witnesses. -/
def fresW : FwdState Int Int :=
  stripeFwdLoop 2 0 true (fun a b => a + b) fkerW rkW rvW [10, 20] [3, 4] [30, 40]

theorem stripe_fwd_mode_witness :
    fresW.calls[1]? = some ⟨[20], [5], [8], true, true⟩ := by
  have := stripe_fwd_mode 2 0 true (fun a b => a + b) fkerW rkW rvW
    [10, 20] [3, 4] [30, 40] false fresW rfl 1 (by decide)
  simpa [curKV, rkW, rvW] using this

/-- C2: a Shifted-mode forward step (`step > rank`) merges the kernel's block
into the running accumulator at row offset 1: row 0 of the running output and
log-sum-exp is left exactly as it was, and each row `i ≥ 1` becomes the
row-wise merge of the previous accumulator row `i` with block row `i - 1`. -/
theorem shifted_merge_row0 {α ρ : Type} (P r s : Nat) (causal : Bool)
    (mergeRow : ρ → ρ → ρ) (fker : Bool → List α → List α → List α → List ρ)
    (recvK recvV : Nat → List α) (q : List α)
    (st : FwdState α ρ) (run : List ρ) (hs : r < s) (hout : st.out = some run) :
    ∃ res, (fwdStep P r causal mergeRow fker recvK recvV q st s).out = some res
      ∧ res.head? = run.head?
      ∧ ∀ i : Nat, 1 ≤ i → i < run.length →
          res[i]? = Option.map₂ mergeRow run[i]?
            ((fker causal (q.drop 1) st.curk.dropLast st.curv.dropLast)[i - 1]?) := by
  have hsr : ¬ (s ≤ r) := by omega
  refine ⟨run.take 1 ++ List.zipWith mergeRow (run.drop 1)
    (fker causal (q.drop 1) st.curk.dropLast st.curv.dropLast), ?_, ?_, ?_⟩
  · simp [fwdStep, hsr, update_out_and_lse, hout]
  · cases run with
    | nil => simp
    | cons a t => simp
  · intro i h1 h2
    obtain ⟨j, rfl⟩ : ∃ j, i = j + 1 := ⟨i - 1, by omega⟩
    cases run with
    | nil => simp at h2
    | cons a t =>
        have : (a :: t).take 1 = [a] := rfl
        rw [this]
        have hidx : ([a] ++ List.zipWith mergeRow ((a :: t).drop 1)
            (fker causal (q.drop 1) st.curk.dropLast st.curv.dropLast))[j + 1]?
            = (List.zipWith mergeRow t
                (fker causal (q.drop 1) st.curk.dropLast st.curv.dropLast))[j]? := by
          simp
        rw [hidx, zipWith_getElem?]
        simp

/-- Concrete state after forward step 0 (P = 2, rank = 0) for the C2 witness:
the accumulator holds the constant block `[7, 7]`. -/
def st1W : FwdState Int Int :=
  fwdStep 2 0 true (fun a b => a + b) fkerW rkW rvW [10, 20]
    ⟨none, [3, 4], [30, 40], [], []⟩ 0

theorem shifted_merge_row0_witness :
    (∃ res, (fwdStep 2 0 true (fun a b => a + b) fkerW rkW rvW [10, 20]
        st1W 1).out = some res ∧ res.head? = some (7 : Int))
    ∧ (fwdStep 2 0 true (fun a b => a + b) fkerW rkW rvW [10, 20]
        st1W 1).out = some [7, 14] := by
  constructor
  · obtain ⟨res, h1, h2, _⟩ := shifted_merge_row0 2 0 1 true
      (fun a b => a + b) fkerW rkW rvW [10, 20] st1W [7, 7]
      (by decide) (by decide)
    exact ⟨res, h1, h2⟩
  · decide

/-- C4: for every world size `P`, both drivers execute exactly `P` ring steps
(one kernel call and one per-step event record each), and the next-shard K/V
fetch (two send/recv transfers plus a commit) together with its matching wait
happen on every step except the last, on which no K/V transfer is issued or
waited on. -/
theorem ring_kv_schedule {α ρ : Type} (P r1 r2 : Nat) (causal causal2 : Bool)
    (mergeRow : ρ → ρ → ρ) (fker : Bool → List α → List α → List α → List ρ)
    (recvK recvV recvK2 recvV2 : Nat → List α)
    (q k v dout q2 k2 v2 out lse : List α) (det1 det2 : Bool)
    (fres : FwdState α ρ) (bres : BwdResult α)
    (hf : stripe_flash_attn_forward P r1 causal mergeRow fker recvK recvV q k v
          det1 = .ok fres)
    (hb : stripe_flash_attn_backward P r2 causal2 recvK2 recvV2 dout q2 k2 v2
          out lse det2 = .ok bres) :
    fres.calls.length = P ∧ fres.evts.length = P
    ∧ bres.fin.calls.length = P ∧ bres.fin.evts.length = P
    ∧ (∀ s : Nat, s < P → fres.evts[s]?
        = some (if s + 1 = P then [.kernelEv]
            else [.sendRecvK, .sendRecvV, .commitEv, .kernelEv, .waitEv]))
    ∧ (∀ s : Nat, s < P → ∃ evl, bres.fin.evts[s]? = some evl
        ∧ evl.filter BwdEvent.isKv
          = (if s + 1 = P then []
             else [.kvFetchK, .kvFetchV, .kvCommit, .kvWait])) := by
  cases causal with
  | false => simp [stripe_flash_attn_forward] at hf
  | true =>
  have hfres : fres = stripeFwdLoop P r1 true mergeRow fker recvK recvV q k v := by
    simpa [stripe_flash_attn_forward] using hf.symm
  subst hfres
  have hbcalls := stripe_bwd_calls P r2 causal2 recvK2 recvV2 dout q2 k2 v2 out
    lse det2 bres hb
  have hbevts := stripe_bwd_evts P r2 causal2 recvK2 recvV2 dout q2 k2 v2 out
    lse det2 bres hb
  refine ⟨?_, ?_, ?_, ?_, ?_, ?_⟩
  · rw [stripeFwdLoop_calls]; simp
  · rw [stripeFwdLoop_evts]; simp
  · rw [hbcalls]; simp
  · rw [hbevts]; simp
  · intro s hs
    rw [stripeFwdLoop_evts, range'_map_getElem _ P s hs]
    by_cases hlast : s + 1 = P <;> simp [expFwdEvts, hlast]
  · intro s hs
    refine ⟨expBwdEvts P s, ?_, ?_⟩
    · rw [hbevts]; exact range'_map_getElem _ P s hs
    · by_cases hlast : s + 1 = P
      · subst hlast
        by_cases hz : s = 0
        · subst hz; simp [expBwdEvts, List.filter, BwdEvent.isKv]
        · simp [expBwdEvts, List.filter, BwdEvent.isKv, hz]
      · by_cases hz : s = 0
        · subst hz; simp [expBwdEvts, List.filter, BwdEvent.isKv, hlast]
        · simp [expBwdEvts, List.filter, BwdEvent.isKv, hlast, hz]

/-- Concrete backward run (P = 2, rank = 0) for witnesses, sharing q, k, v and
the received blocks with the concrete forward run `fresW`. -/
def bresW : BwdResult Int :=
  ⟨bwdLoop 2 0 true rkW rvW [1, 2] [10, 20] [11, 12] [13, 14] 0 2
    ⟨[3, 4], [30, 40], none, true, [], []⟩, [.dkvWait]⟩

theorem ring_kv_schedule_witness :
    fresW.calls.length = 2
    ∧ bresW.fin.calls.length = 2
    ∧ fresW.evts[1]? = some [.kernelEv]
    ∧ (∃ evl, bresW.fin.evts[1]? = some evl
        ∧ evl.filter BwdEvent.isKv = []) := by
  have h := ring_kv_schedule 2 0 0 true true (fun a b => a + b) fkerW
    rkW rvW rkW rvW [10, 20] [3, 4] [30, 40] [1, 2] [10, 20] [3, 4] [30, 40]
    [11, 12] [13, 14] false false fresW bresW rfl rfl
  refine ⟨h.1, h.2.2.1, ?_, ?_⟩
  · simpa using h.2.2.2.2.1 1 (by decide)
  · obtain ⟨evl, h1, h2⟩ := h.2.2.2.2.2 1 (by decide)
    exact ⟨evl, h1, by simpa using h2⟩

/-- C5: the backward pass selects Shifted mode under exactly the same
condition as the forward pass (`shift_causal = step > rank`, the complement
of the forward's `step <= rank` Full test), and in Shifted mode slices the
backward kernel's arguments consistently with the forward's slices: dout, q,
out and the dQ buffer restricted to rows [1, end); k, v and the dK/dV buffers
restricted to rows [0, end-1); and the saved log-sum-exp with row 0 excluded. -/
theorem bwd_matches_fwd_slicing {α ρ : Type} (P r : Nat)
    (causal causal2 : Bool) (mergeRow : ρ → ρ → ρ)
    (fker : Bool → List α → List α → List α → List ρ)
    (recvK recvV : Nat → List α) (q k v dout out lse : List α)
    (det1 det2 : Bool) (fres : FwdState α ρ) (bres : BwdResult α)
    (hf : stripe_flash_attn_forward P r causal mergeRow fker recvK recvV q k v
          det1 = .ok fres)
    (hb : stripe_flash_attn_backward P r causal2 recvK recvV dout q k v out
          lse det2 = .ok bres)
    (s : Nat) (hs : s < P) :
    ∃ fc bc, fres.calls[s]? = some fc ∧ bres.fin.calls[s]? = some bc
      ∧ bc.shifted = decide (s > r)
      ∧ bc.shifted = fc.shifted
      ∧ (bc.shifted = true →
          bc.bdout = dout.drop 1 ∧ bc.bq = q.drop 1 ∧ bc.bq = fc.cq
          ∧ bc.bk = fc.ck ∧ bc.bv = fc.cv
          ∧ bc.bout = out.drop 1 ∧ bc.blse = lse.drop 1
          ∧ bc.dqBuf = BufSlice.dropFirst
          ∧ bc.dkBuf = BufSlice.dropLastRow
          ∧ bc.dvBuf = BufSlice.dropLastRow) := by
  cases causal with
  | false => simp [stripe_flash_attn_forward] at hf
  | true =>
  have hfres : fres = stripeFwdLoop P r true mergeRow fker recvK recvV q k v := by
    simpa [stripe_flash_attn_forward] using hf.symm
  subst hfres
  have hbcalls := stripe_bwd_calls P r causal2 recvK recvV dout q k v out lse
    det2 bres hb
  refine ⟨expFwdCall r true q k v recvK recvV s,
    expBwdCall r causal2 dout q k v out lse recvK recvV s, ?_, ?_, ?_, ?_, ?_⟩
  · rw [stripeFwdLoop_calls]; exact range'_map_getElem _ P s hs
  · rw [hbcalls]; exact range'_map_getElem _ P s hs
  · by_cases hsr : s > r <;> simp [expBwdCall, hsr]
  · by_cases hsr : s > r
    · have : ¬ (s ≤ r) := by omega
      simp [expBwdCall, expFwdCall, hsr, this]
    · have : s ≤ r := by omega
      simp [expBwdCall, expFwdCall, hsr, this]
  · intro hshift
    have hsr : s > r := by
      by_contra hsr
      simp [expBwdCall, hsr] at hshift
    have hnle : ¬ (s ≤ r) := by omega
    simp [expBwdCall, expFwdCall, hsr, hnle]

theorem bwd_matches_fwd_slicing_witness :
    ∃ fc bc, fresW.calls[1]? = some fc ∧ bresW.fin.calls[1]? = some bc
      ∧ bc.shifted = decide (1 > 0)
      ∧ bc.shifted = fc.shifted
      ∧ (bc.shifted = true →
          bc.bdout = ([1, 2] : List Int).drop 1
          ∧ bc.bq = ([10, 20] : List Int).drop 1 ∧ bc.bq = fc.cq
          ∧ bc.bk = fc.ck ∧ bc.bv = fc.cv
          ∧ bc.bout = ([11, 12] : List Int).drop 1
          ∧ bc.blse = ([13, 14] : List Int).drop 1
          ∧ bc.dqBuf = BufSlice.dropFirst
          ∧ bc.dkBuf = BufSlice.dropLastRow
          ∧ bc.dvBuf = BufSlice.dropLastRow) :=
  bwd_matches_fwd_slicing 2 0 true true (fun a b => a + b) fkerW rkW rvW
    [10, 20] [3, 4] [30, 40] [1, 2] [11, 12] [13, 14] false false fresW bresW
    rfl rfl 1 (by decide)

/-- C8: on every backward step on which `shift_causal` holds, the row-sliced
view of the saved log-sum-exp is recomputed from `softmax_lse` at that step:
the `softmax_lse_1 is None` guard always observes `None`, because the variable
is reassigned to `None` at the top of every iteration — whatever value the
previous iteration left in it (arbitrary in the state `st` here) is discarded,
and the slice passed to the kernel is always the fresh
`softmax_lse[:, :, 1:]`. -/
theorem bwd_lse_slice_recomputed {α : Type} (P r s : Nat) (causal : Bool)
    (recvK recvV : Nat → List α) (dout q out lse : List α) (st : BwdState α)
    (hs : r < s) :
    (bwdStep P r causal recvK recvV dout q out lse st s).calls.getLast?
      = some ⟨dout.drop 1, q.drop 1, st.curk.dropLast, st.curv.dropLast,
          out.drop 1, lse.drop 1, .dropFirst, .dropLastRow, .dropLastRow,
          true, causal, some true⟩
    ∧ (bwdStep P r causal recvK recvV dout q out lse st s).lse1
      = some (lse.drop 1) := by
  have hsr : s > r := hs
  constructor
  · simp [bwdStep, hsr]
  · simp [bwdStep, hsr]

theorem bwd_lse_slice_recomputed_witness :
    (bwdStep 2 0 true rkW rvW [1, 2] [10, 20] [11, 12] [13, 14]
        ⟨[3, 4], [30, 40], some [99], false, [], []⟩ 1).calls.getLast?
      = some ⟨[2], [20], [3], [30], [12], [14],
          .dropFirst, .dropLastRow, .dropLastRow, true, true, some true⟩
    ∧ (bwdStep 2 0 true rkW rvW [1, 2] [10, 20] [11, 12] [13, 14]
        ⟨[3, 4], [30, 40], some [99], false, [], []⟩ 1).lse1 = some [14] := by
  have := bwd_lse_slice_recomputed 2 0 1 true rkW rvW [1, 2] [10, 20] [11, 12]
    [13, 14] ⟨[3, 4], [30, 40], some [99], false, [], []⟩ (by decide)
  constructor
  · rw [this.1]; decide
  · rw [this.2]; decide

/-- Numeric dtypes relevant to the finalization casts. -/
inductive DType : Type
  | float16 : DType
  | bfloat16 : DType
  | float32 : DType
  | float64 : DType
deriving DecidableEq, Repr

/-- Shape-and-dtype view of a tensor (the tensor values are irrelevant to the
finalization claims, which are about precision and layout). -/
structure TensorMeta : Type where
  dtype : DType
  shape : List Nat
deriving DecidableEq, Repr

/-- `t.to(dtype)` at the meta level. -/
def castTo (d : DType) (t : TensorMeta) : TensorMeta :=
  ⟨d, t.shape⟩

/-- `t.squeeze(dim=-1)`: removes the last axis exactly when its extent is 1. -/
def squeezeLastDim (s : List Nat) : List Nat :=
  if s.getLast? = some 1 then s.dropLast else s

/-- `t.transpose(1, 2)`: swaps axes 1 and 2 of the shape. -/
def transpose12 (s : List Nat) : List Nat :=
  match s with
  | a :: b :: c :: rest => a :: c :: b :: rest
  | other => other

/-- Finalization of `stripe_flash_attn_forward` (lines 74-76):
`out = out.to(q.dtype)` and `lse = lse.squeeze(dim=-1).transpose(1, 2)`,
applied to the full-precision accumulators. -/
def fwdFinalize (qDtype : DType) (outAcc lseAcc : TensorMeta) :
    TensorMeta × TensorMeta :=
  (castTo qDtype outAcc, ⟨lseAcc.dtype, transpose12 (squeezeLastDim lseAcc.shape)⟩)

/-- Finalization of `stripe_flash_attn_backward` (line 195):
`return dq.to(q.dtype), next_dk.to(q.dtype), next_dv.to(q.dtype)`. -/
def bwdFinalize (qDtype : DType) (dq dk dv : TensorMeta) :
    TensorMeta × TensorMeta × TensorMeta :=
  (castTo qDtype dq, castTo qDtype dk, castTo qDtype dv)

/-- C6: finalization always casts back to the caller's precision — the forward
output is returned with q's dtype and the log-sum-exp reshaped to the caller's
layout (last axis squeezed away, axes 1 and 2 transposed, so the accumulator
layout (batch, seq, heads, 1) becomes (batch, heads, seq)), and the backward
returns dQ, dK, dV all cast to q's dtype from the full-precision
accumulators, whatever dtype those accumulators have. -/
theorem finalization_casts (qd : DType) (outAcc lseAcc dq dk dv : TensorMeta)
    (b sq hd : Nat) :
    (fwdFinalize qd outAcc lseAcc).1.dtype = qd
    ∧ (fwdFinalize qd outAcc lseAcc).2.shape
        = transpose12 (squeezeLastDim lseAcc.shape)
    ∧ (fwdFinalize qd outAcc ⟨DType.float32, [b, sq, hd, 1]⟩).2.shape
        = [b, hd, sq]
    ∧ (bwdFinalize qd dq dk dv).1.dtype = qd
    ∧ (bwdFinalize qd dq dk dv).2.1.dtype = qd
    ∧ (bwdFinalize qd dq dk dv).2.2.dtype = qd :=
  ⟨rfl, rfl, rfl, rfl, rfl, rfl⟩

/-- Autograd context saved by `StripeFlashAttnFunc.forward`
(`ctx.save_for_backward(q, k, v, out, softmax_lse)` and the attribute
assignments, lines 237-246). -/
structure SavedCtx (α ρ : Type) where
  sq : List α
  sk : List α
  sv : List α
  soutAcc : Option (List ρ)
  dropoutP : Rat
  scaleArg : Option Rat
  causalSaved : Bool
  window : Int × Int
  softcapV : Rat
  alibiNone : Bool
  deterministicSaved : Bool
  attnTypeSaved : Nat
deriving DecidableEq, Repr

/-- Result of `StripeFlashAttnFunc.forward`: the driver result, the saved
context, and whether the softmax statistics were also returned (line 247). -/
structure FuncResult (α ρ : Type) where
  fwdRes : FwdState α ρ
  ctx : SavedCtx α ρ
  returnedSoftmax : Bool
deriving DecidableEq, Repr

/-- `StripeFlashAttnFunc.forward` (lines 199-247): asserts
`alibi_slopes is None` (line 219) before anything else observable; makes k and
v contiguous (line 220-221, memory layout, not modelled); runs
`stripe_flash_attn_forward` with `deterministic=False` hard-coded (line 233);
saves the context (lines 237-246), including the caller's `deterministic`
value (line 244); returns the output, plus the log-sum-exp when
`return_softmax` (line 247).  The default softmax scale
`q.shape[-1] ** (-0.5)` (lines 216-217) is a real-valued constant outside
this discrete embedding; the scale argument is carried through unresolved
(no claim depends on its numeric value). -/
def StripeFlashAttnFunc_forward {α ρ : Type} (P r : Nat)
    (mergeRow : ρ → ρ → ρ) (fker : Bool → List α → List α → List α → List ρ)
    (recvK recvV : Nat → List α) (q k v : List α)
    (dropout_p : Rat) (softmax_scale : Option Rat) (causal : Bool)
    (window : Int × Int) (softcap : Rat) (alibi : Option Rat)
    (deterministic : Bool) (return_softmax : Bool) (attnType : Nat) :
    Except String (FuncResult α ρ) :=
  if alibi.isSome then .error "assert alibi_slopes is None"
  else
    (stripe_flash_attn_forward P r causal mergeRow fker recvK recvV q k v
        false).map fun res =>
      ⟨res,
       ⟨q, k, v, res.out, dropout_p, softmax_scale, causal, window, softcap,
         alibi.isNone, deterministic, attnType⟩,
       return_softmax⟩

/-- C7: with `causal` false both drivers fail their leading assertion and
return the error immediately — no ring step, transfer, kernel call or state
mutation is recorded — and a call through the autograd entry point with a
non-None `alibi_slopes` fails its assertion before the forward driver is
invoked. -/
theorem config_asserts {α ρ : Type} (P r : Nat) (causal : Bool)
    (mergeRow : ρ → ρ → ρ) (fker : Bool → List α → List α → List α → List ρ)
    (recvK recvV : Nat → List α) (q k v dout out lse : List α)
    (det : Bool) (dropout_p : Rat) (softmax_scale : Option Rat)
    (window : Int × Int) (softcap : Rat) (alibi : Option Rat)
    (return_softmax : Bool) (attnType : Nat) :
    (causal = false →
      stripe_flash_attn_forward P r causal mergeRow fker recvK recvV q k v det
        = .error "stripe flash attn only supports causal attention, if not causal, use ring flash attn instead")
    ∧ (causal = false →
      stripe_flash_attn_backward P r causal recvK recvV dout q k v out lse det
        = .error "stripe flash attn only supports causal attention, if not causal, ring flash attn instead")
    ∧ (alibi.isSome →
      StripeFlashAttnFunc_forward P r mergeRow fker recvK recvV q k v
          dropout_p softmax_scale causal window softcap alibi det
          return_softmax attnType
        = .error "assert alibi_slopes is None") := by
  refine ⟨?_, ?_, ?_⟩
  · intro hc; subst hc; rfl
  · intro hc; subst hc; rfl
  · intro ha; simp [StripeFlashAttnFunc_forward, ha]

theorem config_asserts_witness :
    (stripe_flash_attn_forward 2 0 false (fun a b => a + b) fkerW rkW rvW
        [10, 20] [3, 4] [30, 40] false
      = .error "stripe flash attn only supports causal attention, if not causal, use ring flash attn instead")
    ∧ (stripe_flash_attn_backward 2 0 false rkW rvW [1, 2] [10, 20] [3, 4]
        [30, 40] [11, 12] [13, 14] false
      = .error "stripe flash attn only supports causal attention, if not causal, ring flash attn instead")
    ∧ (StripeFlashAttnFunc_forward 2 0 (fun a b => a + b) fkerW rkW rvW
        [10, 20] [3, 4] [30, 40] 0 none true (-1, -1) 0 (some 1) false false 0
      = .error "assert alibi_slopes is None") := by
  have h1 := config_asserts 2 0 false (fun a b => a + b) fkerW rkW rvW
    [10, 20] [3, 4] [30, 40] [1, 2] [11, 12] [13, 14] false 0 none (-1, -1) 0
    none false 0
  have h2 := config_asserts 2 0 true (fun a b => a + b) fkerW rkW rvW
    [10, 20] [3, 4] [30, 40] [1, 2] [11, 12] [13, 14] false 0 none (-1, -1) 0
    (some 1) false 0
  exact ⟨h1.1 rfl, h1.2.1 rfl, h2.2.2 rfl⟩

/-- `stripe_flash_attn_func` (lines 333-362): forwards all arguments to
`StripeFlashAttnFunc.apply`, i.e. to `StripeFlashAttnFunc.forward`. -/
def stripe_flash_attn_func {α ρ : Type} (P r : Nat)
    (mergeRow : ρ → ρ → ρ) (fker : Bool → List α → List α → List α → List ρ)
    (recvK recvV : Nat → List α) (q k v : List α)
    (dropout_p : Rat) (softmax_scale : Option Rat) (causal : Bool)
    (window : Int × Int) (softcap : Rat) (alibi : Option Rat)
    (deterministic : Bool) (return_attn_probs : Bool) (attnType : Nat) :
    Except String (FuncResult α ρ) :=
  StripeFlashAttnFunc_forward P r mergeRow fker recvK recvV q k v dropout_p
    softmax_scale causal window softcap alibi deterministic return_attn_probs
    attnType

/-- `stripe_flash_attn_qkvpacked_func` (lines 272-299): splits the packed
tensor along its q/k/v axis (`qkv[:, :, 0]`, `qkv[:, :, 1]`, `qkv[:, :, 2]`;
at the sequence-row level the packed tensor is a list of triples) and forwards
to `StripeFlashAttnFunc.apply`. -/
def stripe_flash_attn_qkvpacked_func {α ρ : Type} (P r : Nat)
    (mergeRow : ρ → ρ → ρ) (fker : Bool → List α → List α → List α → List ρ)
    (recvK recvV : Nat → List α) (qkv : List (α × α × α))
    (dropout_p : Rat) (softmax_scale : Option Rat) (causal : Bool)
    (window : Int × Int) (softcap : Rat) (alibi : Option Rat)
    (deterministic : Bool) (return_attn_probs : Bool) (attnType : Nat) :
    Except String (FuncResult α ρ) :=
  StripeFlashAttnFunc_forward P r mergeRow fker recvK recvV
    (qkv.map fun x => x.1) (qkv.map fun x => x.2.1) (qkv.map fun x => x.2.2)
    dropout_p softmax_scale causal window softcap alibi deterministic
    return_attn_probs attnType

/-- `stripe_flash_attn_kvpacked_func` (lines 302-330): splits the packed kv
tensor (`kv[:, :, 0]`, `kv[:, :, 1]`) and forwards to
`StripeFlashAttnFunc.apply`. -/
def stripe_flash_attn_kvpacked_func {α ρ : Type} (P r : Nat)
    (mergeRow : ρ → ρ → ρ) (fker : Bool → List α → List α → List α → List ρ)
    (recvK recvV : Nat → List α) (q : List α) (kv : List (α × α))
    (dropout_p : Rat) (softmax_scale : Option Rat) (causal : Bool)
    (window : Int × Int) (softcap : Rat) (alibi : Option Rat)
    (deterministic : Bool) (return_attn_probs : Bool) (attnType : Nat) :
    Except String (FuncResult α ρ) :=
  StripeFlashAttnFunc_forward P r mergeRow fker recvK recvV
    q (kv.map fun x => x.1) (kv.map fun x => x.2)
    dropout_p softmax_scale causal window softcap alibi deterministic
    return_attn_probs attnType

/-- A call of `stripe_flash_attn_func` in which the caller passes only the
tensors: Python fills in the declared defaults `dropout_p=0.0`,
`softmax_scale=None`, `causal=False`, `window_size=(-1, -1)`, `softcap=0.0`,
`alibi_slopes=None`, `deterministic=False`, `return_attn_probs=False`
(lines 336-346). -/
def stripe_flash_attn_func_defaults {α ρ : Type} (P r : Nat)
    (mergeRow : ρ → ρ → ρ) (fker : Bool → List α → List α → List α → List ρ)
    (recvK recvV : Nat → List α) (q k v : List α) :
    Except String (FuncResult α ρ) :=
  stripe_flash_attn_func P r mergeRow fker recvK recvV q k v
    0 none false (-1, -1) 0 none false false 0

/-- A call of `stripe_flash_attn_qkvpacked_func` with only the packed tensor
passed, the declared defaults (lines 274-283) filling the rest. -/
def stripe_flash_attn_qkvpacked_func_defaults {α ρ : Type} (P r : Nat)
    (mergeRow : ρ → ρ → ρ) (fker : Bool → List α → List α → List α → List ρ)
    (recvK recvV : Nat → List α) (qkv : List (α × α × α)) :
    Except String (FuncResult α ρ) :=
  stripe_flash_attn_qkvpacked_func P r mergeRow fker recvK recvV qkv
    0 none false (-1, -1) 0 none false false 0

/-- A call of `stripe_flash_attn_kvpacked_func` with only the tensors passed,
the declared defaults (lines 305-314) filling the rest. -/
def stripe_flash_attn_kvpacked_func_defaults {α ρ : Type} (P r : Nat)
    (mergeRow : ρ → ρ → ρ) (fker : Bool → List α → List α → List α → List ρ)
    (recvK recvV : Nat → List α) (q : List α) (kv : List (α × α)) :
    Except String (FuncResult α ρ) :=
  stripe_flash_attn_kvpacked_func P r mergeRow fker recvK recvV q kv
    0 none false (-1, -1) 0 none false false 0

/-- C9: all three public entry points default `causal` to `False`, so a call
that does not explicitly pass `causal=True` always fails the forward driver's
causal assertion (the alibi default `None` passes its assertion first): the
defaults alone never yield a successful computation. -/
theorem defaults_always_fail {α ρ : Type} (P r : Nat)
    (mergeRow : ρ → ρ → ρ) (fker : Bool → List α → List α → List α → List ρ)
    (recvK recvV : Nat → List α) (q k v : List α)
    (qkv : List (α × α × α)) (kv : List (α × α)) :
    stripe_flash_attn_func_defaults P r mergeRow fker recvK recvV q k v
      = .error "stripe flash attn only supports causal attention, if not causal, use ring flash attn instead"
    ∧ stripe_flash_attn_qkvpacked_func_defaults P r mergeRow fker recvK recvV qkv
      = .error "stripe flash attn only supports causal attention, if not causal, use ring flash attn instead"
    ∧ stripe_flash_attn_kvpacked_func_defaults P r mergeRow fker recvK recvV q kv
      = .error "stripe flash attn only supports causal attention, if not causal, use ring flash attn instead" :=
  ⟨rfl, rfl, rfl⟩

/-- C10: the forward result is independent of the caller's `deterministic`
argument: `StripeFlashAttnFunc.forward` invokes the forward driver with
`deterministic=False` hard-coded, so two calls differing only in the flag
produce identical driver results (output and log-sum-exp), while the caller's
value is saved on the context (and is thus available to the backward pass
only). -/
theorem fwd_independent_of_deterministic {α ρ : Type} (P r : Nat)
    (mergeRow : ρ → ρ → ρ) (fker : Bool → List α → List α → List α → List ρ)
    (recvK recvV : Nat → List α) (q k v : List α)
    (dropout_p : Rat) (softmax_scale : Option Rat) (causal : Bool)
    (window : Int × Int) (softcap : Rat) (alibi : Option Rat)
    (d1 d2 : Bool) (return_softmax : Bool) (attnType : Nat) :
    (StripeFlashAttnFunc_forward P r mergeRow fker recvK recvV q k v dropout_p
        softmax_scale causal window softcap alibi d1 return_softmax
        attnType).map (fun res => res.fwdRes)
      = (StripeFlashAttnFunc_forward P r mergeRow fker recvK recvV q k v
          dropout_p softmax_scale causal window softcap alibi d2
          return_softmax attnType).map (fun res => res.fwdRes)
    ∧ (∀ res, StripeFlashAttnFunc_forward P r mergeRow fker recvK recvV q k v
          dropout_p softmax_scale causal window softcap alibi d1
          return_softmax attnType = .ok res →
        res.ctx.deterministicSaved = d1) := by
  constructor
  · by_cases ha : alibi.isSome
    · simp [StripeFlashAttnFunc_forward, ha]
    · cases hdr : stripe_flash_attn_forward P r causal mergeRow fker recvK
        recvV q k v false with
      | error e => simp [StripeFlashAttnFunc_forward, ha, hdr, Except.map]
      | ok dres => simp [StripeFlashAttnFunc_forward, ha, hdr, Except.map]
  · intro res h
    by_cases ha : alibi.isSome
    · simp [StripeFlashAttnFunc_forward, ha] at h
    · cases hdr : stripe_flash_attn_forward P r causal mergeRow fker recvK
        recvV q k v false with
      | error e => simp [StripeFlashAttnFunc_forward, ha, hdr, Except.map] at h
      | ok dres =>
          simp [StripeFlashAttnFunc_forward, ha, hdr, Except.map] at h
          rw [← h]

/-- Concrete successful autograd-forward result (caller passed
`deterministic=True`) for the C10 witness. -/
def funcResW : FuncResult Int Int :=
  ⟨fresW,
   ⟨[10, 20], [3, 4], [30, 40], fresW.out, 0, none, true, (-1, -1), 0,
     true, true, 0⟩,
   false⟩

theorem fwd_independent_of_deterministic_witness :
    ((StripeFlashAttnFunc_forward 2 0 (fun a b => a + b) fkerW rkW rvW
        [10, 20] [3, 4] [30, 40] 0 none true (-1, -1) 0 none true false
        0).map (fun res => res.fwdRes)
      = (StripeFlashAttnFunc_forward 2 0 (fun a b => a + b) fkerW rkW rvW
          [10, 20] [3, 4] [30, 40] 0 none true (-1, -1) 0 none false false
          0).map (fun res => res.fwdRes))
    ∧ funcResW.ctx.deterministicSaved = true := by
  have h := fwd_independent_of_deterministic 2 0 (fun a b => a + b) fkerW rkW
    rvW [10, 20] [3, 4] [30, 40] 0 none true (-1, -1) 0 none true false false 0
  exact ⟨h.1, h.2 funcResW rfl⟩
